import Mathlib

/-!
# azemailsender: message builder and client defaults

A shallow embedding of `types.go` and `builder.go`.

* Go strings are modelled by `String`.  Every string operation used by the
  embedded code (`== ""`, `len(s) == 0`, splitting at `@`, searching for `.`,
  concatenation, joining) gives the same answer on a byte sequence and on the
  sequence of characters it encodes, because `@`, `.`, `;` and `/` are ASCII.
* Go slices are modelled by `List`; `append` is `++ [x]`.  A nil slice and an
  empty slice are both `[]`.
* The builder mutates `*b.message` in place and writes debug lines through
  `b.client.logger`.  Both become explicit state: every builder method returns
  the new builder, and the logger is a sink that records the lines written.
* `(*EmailMessage, error)` is modelled by `Option EmailMessage × Option String`,
  where `none` is `nil` and an error is represented by its text.
-/

set_option autoImplicit false
set_option maxRecDepth 16384

namespace azemailsender

/-! ## types.go -/

/-- The Go type `time.Duration`: a signed number of nanoseconds. -/
abbrev Duration := Int

/-- The constant `time.Nanosecond`. -/
def Nanosecond : Duration := 1
/-- The constant `time.Microsecond`. -/
def Microsecond : Duration := 1000 * Nanosecond
/-- The constant `time.Millisecond`. -/
def Millisecond : Duration := 1000 * Microsecond
/-- The constant `time.Second`. -/
def Second : Duration := 1000 * Millisecond

/-- The constant `DefaultAPIVersion`. -/
def DefaultAPIVersion : String := "2025-09-01"

/-- The `Logger` interface (`Printf(format, v...)`), modelled as a sink that
records each formatted line. -/
structure Logger where
  out : List String
deriving DecidableEq, Repr

/-- One call of `Printf` with the already formatted line. -/
def Logger.Printf (l : Logger) (line : String) : Logger :=
  { out := l.out ++ [line] }

/-- The standard logger returned by `log.Default()`, with nothing written yet. -/
def logDefault : Logger := { out := [] }

/-- The struct `ClientOptions`. -/
structure ClientOptions where
  Debug : Bool
  Logger : Option azemailsender.Logger
  HTTPTimeout : Duration
  APIVersion : String
  MaxRetries : Int
  RetryDelay : Duration
deriving DecidableEq, Repr

/-- The function `DefaultClientOptions`. -/
def DefaultClientOptions : ClientOptions :=
  { Debug := false
    Logger := some logDefault
    HTTPTimeout := 30 * Second
    APIVersion := DefaultAPIVersion
    MaxRetries := 3
    RetryDelay := Second }

/-- The struct `EmailAddress`. -/
structure EmailAddress where
  Address : String
  DisplayName : String
deriving DecidableEq, Repr

/-- The struct `EmailContent`. -/
structure EmailContent where
  Subject : String
  PlainText : String
  Html : String
deriving DecidableEq, Repr

/-- The struct `EmailRecipients`. -/
structure EmailRecipients where
  To : List EmailAddress
  Cc : List EmailAddress
  Bcc : List EmailAddress
deriving DecidableEq, Repr

/-- The struct `EmailAttachment`. -/
structure EmailAttachment where
  Name : String
  ContentType : String
  Content : String
deriving DecidableEq, Repr

/-- The struct `EmailMessage`. -/
structure EmailMessage where
  SenderAddress : String
  Content : EmailContent
  Recipients : EmailRecipients
  ReplyTo : List EmailAddress
  Attachments : List EmailAttachment
deriving DecidableEq, Repr

/-! ## Library functions called by builder.go -/

/-- The library function `strings.ToLower`.  A string of ASCII bytes has its
letters `A`..`Z` mapped to `a`..`z`; any other string is mapped rune by rune
through `unicode.ToLower`, which is the argument `unicodeToLower`. -/
def ToLower (unicodeToLower : Char → Char) (s : String) : String :=
  if s.data.all (fun c => c.val < 128) then
    String.mk (s.data.map (fun c => if 'A' ≤ c ∧ c ≤ 'Z' then Char.ofNat (c.toNat + 32) else c))
  else
    String.mk (s.data.map unicodeToLower)

/-- The pieces of `cs` between the occurrences of `sep`: one more piece than
there are occurrences. -/
def splitChars (sep : Char) : List Char → List (List Char)
  | [] => [[]]
  | c :: cs =>
    if c = sep then [] :: splitChars sep cs
    else
      match splitChars sep cs with
      | [] => [[c]]
      | p :: ps => (c :: p) :: ps

/-- The library function `strings.Split(s, sep)` for a separator of one ASCII
character. -/
def Split (s : String) (sep : Char) : List String :=
  (splitChars sep s.data).map String.mk

/-- The library function `strings.Contains(s, substr)` for a substring of one
ASCII character. -/
def Contains (s : String) (c : Char) : Bool :=
  s.data.contains c

/-- The library function `strings.Join(elems, sep)`. -/
def Join (elems : List String) (sep : String) : String :=
  sep.intercalate elems

/-- The text printed for `%t`. -/
def fmtBool (x : Bool) : String := if x then "true" else "false"

/-- One byte. -/
abbrev Byte := Fin 256

/-- The alphabet `encodeStd` of `base64.StdEncoding`. -/
def encodeStd : String :=
  "ABCDEFGHIJKLMNOPQRSTUVWXYZabcdefghijklmnopqrstuvwxyz0123456789+/"

/-- The lookup `enc.encode[i]`, used at indices below 64 only. -/
def encChar (i : Nat) : Char := encodeStd.data.getD i 'A'

/-- The loop of `Encoding.Encode` for the standard, padded encoding.  Three
bytes form the 24-bit value `b0<<16 | b1<<8 | b2`, and `val>>k & 0x3F` is
written `val / 2^k % 64`; a remainder of one or two bytes is padded with `=`. -/
def encodeChars : List Byte → List Char
  | b0 :: b1 :: b2 :: rest =>
    let val := b0.val * 65536 + b1.val * 256 + b2.val
    encChar (val / 262144 % 64) :: encChar (val / 4096 % 64) :: encChar (val / 64 % 64)
      :: encChar (val % 64) :: encodeChars rest
  | [b0, b1] =>
    let val := b0.val * 65536 + b1.val * 256
    [encChar (val / 262144 % 64), encChar (val / 4096 % 64), encChar (val / 64 % 64), '=']
  | [b0] =>
    let val := b0.val * 65536
    [encChar (val / 262144 % 64), encChar (val / 4096 % 64), '=', '=']
  | [] => []

/-- The library function `base64.StdEncoding.EncodeToString`. -/
def EncodeToString (src : List Byte) : String := String.mk (encodeChars src)

/-- The inverse lookup of the alphabet: the position of `c` in `encodeStd`. -/
def decChar (c : Char) : Option Nat :=
  let i := encodeStd.data.indexOf c
  if i < 64 then some i else none

/-- Decoding of the standard padded encoding, four characters at a time:
`val = v0<<18 | v1<<12 | v2<<6 | v3` gives the bytes `val>>16`, `val>>8`, `val`;
a last group `xx==` gives one byte and `xxx=` two.  Anything else is corrupt
input (`none`). -/
def decodeChars : List Char → Option (List Byte)
  | [] => some []
  | c0 :: c1 :: c2 :: c3 :: rest =>
    if c3 = '=' then
      if rest ≠ [] then none
      else if c2 = '=' then
        match decChar c0, decChar c1 with
        | some v0, some v1 =>
          let val := v0 * 262144 + v1 * 4096
          some [Fin.ofNat (val / 65536)]
        | _, _ => none
      else
        match decChar c0, decChar c1, decChar c2 with
        | some v0, some v1, some v2 =>
          let val := v0 * 262144 + v1 * 4096 + v2 * 64
          some [Fin.ofNat (val / 65536), Fin.ofNat (val / 256)]
        | _, _, _ => none
    else
      match decChar c0, decChar c1, decChar c2, decChar c3, decodeChars rest with
      | some v0, some v1, some v2, some v3, some tail =>
        let val := v0 * 262144 + v1 * 4096 + v2 * 64 + v3
        some (Fin.ofNat (val / 65536) :: Fin.ofNat (val / 256) :: Fin.ofNat val :: tail)
      | _, _, _, _, _ => none
  | _ => none

/-- The library function `base64.StdEncoding.DecodeString` on input without
line breaks; `none` is a decoding error. -/
def DecodeString (s : String) : Option (List Byte) := decodeChars s.data

/-- The library function `filepath.Base` for the separator `/` (no volume
names): an empty path gives `.`, trailing separators are dropped, the result is
what follows the last separator, and a path of separators only gives `/`.  The
path is handled in reverse, so trailing becomes leading. -/
def Base (path : String) : String :=
  if path = "" then "."
  else
    let stripped := path.data.reverse.dropWhile (fun c => c = '/')
    let last := (stripped.takeWhile (fun c => c ≠ '/')).reverse
    if last = [] then "/" else String.mk last

/-! ## builder.go -/

/-- Modelled from the spec: the struct `Client` is declared outside the given
sources.  The builder reads `client.options.Debug` and calls
`client.logger.Printf`; the spec lists a debug flag and a Printf-style logger
among the configuration, and these are the two fields kept here. -/
structure Client where
  options : ClientOptions
  logger : Logger
deriving DecidableEq, Repr

/-- The call `c.logger.Printf(...)` with the formatted line. -/
def Client.Printf (c : Client) (line : String) : Client :=
  { c with logger := c.logger.Printf line }

/-- The struct `MessageBuilder`. -/
structure MessageBuilder where
  client : Client
  message : EmailMessage
deriving DecidableEq, Repr

/-- The method `Client.NewMessage`. -/
def Client.NewMessage (c : Client) : MessageBuilder :=
  let c := if c.options.Debug then c.Printf "[DEBUG] Creating new message builder" else c
  { client := c
    message :=
      { SenderAddress := ""
        Content := { Subject := "", PlainText := "", Html := "" }
        Recipients := { To := [], Cc := [], Bcc := [] }
        ReplyTo := []
        Attachments := [] } }

/-- The function `isValidEmail`. -/
def isValidEmail (email : String) : Bool :=
  let parts := Split email '@'
  if parts.length ≠ 2 then false
  else
    let localPart := parts.getD 0 ""
    let domainPart := parts.getD 1 ""
    if localPart.length = 0 ∨ domainPart.length = 0 then false
    else if !Contains domainPart '.' then false
    else true

namespace MessageBuilder

/-- The method `From`. -/
def From (b : MessageBuilder) (address : String) : MessageBuilder :=
  let client :=
    if b.client.options.Debug then
      b.client.Printf ("[DEBUG] Setting sender address: " ++ address)
    else b.client
  { client := client, message := { b.message with SenderAddress := address } }

/-- The first lines shared by `To`, `Cc`, `Bcc` and `ReplyTo`:
`emailAddr := EmailAddress{Address: address}` followed by
`if len(displayName) > 0 && displayName[0] != "" { emailAddr.DisplayName = displayName[0] }`. -/
def mkEmailAddr (address : String) (displayName : List String) : EmailAddress :=
  let emailAddr : EmailAddress := { Address := address, DisplayName := "" }
  if displayName.length > 0 ∧ displayName.getD 0 "" ≠ "" then
    { emailAddr with DisplayName := displayName.getD 0 "" }
  else emailAddr

/-- The debug block shared by `To`, `Cc`, `Bcc` and `ReplyTo`; `what` is the
text that differs (`TO recipient`, `CC recipient`, `BCC recipient`,
`ReplyTo address`). -/
def logAdding (c : Client) (what : String) (emailAddr : EmailAddress) : Client :=
  if c.options.Debug then
    if emailAddr.DisplayName ≠ "" then
      c.Printf ("[DEBUG] Adding " ++ what ++ ": " ++ emailAddr.DisplayName
        ++ " <" ++ emailAddr.Address ++ ">")
    else
      c.Printf ("[DEBUG] Adding " ++ what ++ ": " ++ emailAddr.Address)
  else c

/-- The method `To`; the variadic `displayName ...string` is a list. -/
def To (b : MessageBuilder) (address : String) (displayName : List String) :
    MessageBuilder :=
  let emailAddr := mkEmailAddr address displayName
  let client := logAdding b.client "TO recipient" emailAddr
  { client := client
    message := { b.message with
      Recipients := { b.message.Recipients with
        To := b.message.Recipients.To ++ [emailAddr] } } }

/-- The method `Cc`. -/
def Cc (b : MessageBuilder) (address : String) (displayName : List String) :
    MessageBuilder :=
  let emailAddr := mkEmailAddr address displayName
  let client := logAdding b.client "CC recipient" emailAddr
  { client := client
    message := { b.message with
      Recipients := { b.message.Recipients with
        Cc := b.message.Recipients.Cc ++ [emailAddr] } } }

/-- The method `Bcc`. -/
def Bcc (b : MessageBuilder) (address : String) (displayName : List String) :
    MessageBuilder :=
  let emailAddr := mkEmailAddr address displayName
  let client := logAdding b.client "BCC recipient" emailAddr
  { client := client
    message := { b.message with
      Recipients := { b.message.Recipients with
        Bcc := b.message.Recipients.Bcc ++ [emailAddr] } } }

/-- The method `ReplyTo`. -/
def ReplyTo (b : MessageBuilder) (address : String) (displayName : List String) :
    MessageBuilder :=
  let emailAddr := mkEmailAddr address displayName
  let client := logAdding b.client "ReplyTo address" emailAddr
  { client := client
    message := { b.message with ReplyTo := b.message.ReplyTo ++ [emailAddr] } }

/-- The method `Subject`. -/
def Subject (b : MessageBuilder) (subject : String) : MessageBuilder :=
  let client :=
    if b.client.options.Debug then
      b.client.Printf ("[DEBUG] Setting email subject: " ++ subject)
    else b.client
  { client := client
    message := { b.message with Content := { b.message.Content with Subject := subject } } }

/-- The method `PlainText`; `len(content)` is the length in bytes. -/
def PlainText (b : MessageBuilder) (content : String) : MessageBuilder :=
  let client :=
    if b.client.options.Debug then
      b.client.Printf ("[DEBUG] Setting plain text content ("
        ++ toString content.utf8ByteSize ++ " characters)")
    else b.client
  { client := client
    message := { b.message with Content := { b.message.Content with PlainText := content } } }

/-- The method `HTML`. -/
def HTML (b : MessageBuilder) (content : String) : MessageBuilder :=
  let client :=
    if b.client.options.Debug then
      b.client.Printf ("[DEBUG] Setting HTML content ("
        ++ toString content.utf8ByteSize ++ " characters)")
    else b.client
  { client := client
    message := { b.message with Content := { b.message.Content with Html := content } } }

/-- The method `AddMultipleRecipients`.  The loop over `addresses` is a left
fold; the `switch` is evaluated once per address, as in the source. -/
def AddMultipleRecipients (unicodeToLower : Char → Char) (b : MessageBuilder)
    (recipientType : String) (addresses : List String) : MessageBuilder :=
  let b : MessageBuilder :=
    if b.client.options.Debug then
      { b with client := b.client.Printf ("[DEBUG] Adding " ++ toString addresses.length
          ++ " recipients to " ++ recipientType ++ " field") }
    else b
  addresses.foldl
    (fun b addr =>
      let t := ToLower unicodeToLower recipientType
      if t = "to" then b.To addr []
      else if t = "cc" then b.Cc addr []
      else if t = "bcc" then b.Bcc addr []
      else if b.client.options.Debug then
        { b with client := b.client.Printf ("[DEBUG] Unknown recipient type: " ++ recipientType) }
      else b)
    b

/-- The method `AddAttachment`.  The two file system calls are the arguments
`DetectFile` (`mimetype.DetectFile` followed by `String()`) and `ReadFile`
(`os.ReadFile`); `log.Panicln` is the failure result carrying the panic text. -/
def AddAttachment (DetectFile : String → Except String String)
    (ReadFile : String → Except String (List Byte))
    (b : MessageBuilder) (filePath : String) : Except String MessageBuilder :=
  match DetectFile filePath with
  | Except.error err => Except.error ("Cant detect attachment mimetype: " ++ err ++ "\n")
  | Except.ok mtype =>
    match ReadFile filePath with
    | Except.error err => Except.error ("Cant read attachment: " ++ err ++ "\n")
    | Except.ok data =>
      let attachment : EmailAttachment :=
        { Name := Base filePath
          ContentType := mtype
          Content := EncodeToString data }
      Except.ok { b with
        message := { b.message with Attachments := b.message.Attachments ++ [attachment] } }

/-- The slice `errors` of `Validate` just before `if len(errors) > 0`. -/
def validationErrors (b : MessageBuilder) : List String :=
  let errors : List String := []
  let errors :=
    if b.message.SenderAddress = "" then errors ++ ["sender address is required"] else errors
  let errors :=
    if b.message.Content.Subject = "" then errors ++ ["subject is required"] else errors
  let errors :=
    if b.message.Content.PlainText = "" ∧ b.message.Content.Html = "" then
      errors ++ ["either plain text or HTML content is required"]
    else errors
  let errors :=
    if b.message.Recipients.To.length = 0 ∧ b.message.Recipients.Cc.length = 0
        ∧ b.message.Recipients.Bcc.length = 0 then
      errors ++ ["at least one recipient is required"]
    else errors
  let allRecipients :=
    (b.message.Recipients.To ++ b.message.Recipients.Cc) ++ b.message.Recipients.Bcc
  let errors :=
    allRecipients.foldl
      (fun errors recipient =>
        if !isValidEmail recipient.Address then
          errors ++ ["invalid email address: " ++ recipient.Address]
        else errors)
      errors
  let errors :=
    if !isValidEmail b.message.SenderAddress then
      errors ++ ["invalid sender email address: " ++ b.message.SenderAddress]
    else errors
  errors

/-- The method `Validate`: the builder after the debug lines were written, and
the returned error (`none` is `nil`, `some text` an error with that text). -/
def Validate (b : MessageBuilder) : MessageBuilder × Option String :=
  let client :=
    if b.client.options.Debug then b.client.Printf "[DEBUG] Validating email message"
    else b.client
  let errors := validationErrors b
  if errors.length > 0 then
    let client :=
      if client.options.Debug then
        errors.foldl (fun c err => c.Printf ("[DEBUG]   - " ++ err))
          (client.Printf ("[DEBUG] Validation failed with " ++ toString errors.length
            ++ " errors:"))
      else client
    ({ b with client := client }, some ("validation failed: " ++ Join errors "; "))
  else
    let client :=
      if client.options.Debug then client.Printf "[DEBUG] Message validation successful"
      else client
    ({ b with client := client }, none)

/-- The method `Build`: the builder after the debug lines were written, the
returned message pointer and the returned error. -/
def Build (b : MessageBuilder) : MessageBuilder × Option EmailMessage × Option String :=
  let b : MessageBuilder :=
    if b.client.options.Debug then
      { b with client := b.client.Printf "[DEBUG] Building email message" }
    else b
  match b.Validate with
  | (b, some err) => (b, none, some err)
  | (b, none) =>
    let client :=
      if b.client.options.Debug then
        let c := b.client.Printf "[DEBUG] Message built successfully:"
        let c := c.Printf ("[DEBUG]   From: " ++ b.message.SenderAddress)
        let c := c.Printf ("[DEBUG]   Subject: " ++ b.message.Content.Subject)
        let c := c.Printf ("[DEBUG]   To recipients: "
          ++ toString b.message.Recipients.To.length)
        let c := c.Printf ("[DEBUG]   CC recipients: "
          ++ toString b.message.Recipients.Cc.length)
        let c := c.Printf ("[DEBUG]   BCC recipients: "
          ++ toString b.message.Recipients.Bcc.length)
        let c := c.Printf ("[DEBUG]   Has plain text: "
          ++ fmtBool (b.message.Content.PlainText != ""))
        let c := c.Printf ("[DEBUG]   Has HTML: " ++ fmtBool (b.message.Content.Html != ""))
        if b.message.Attachments.length > 0 then
          b.message.Attachments.foldl
            (fun c attachment => c.Printf ("[DEBUG] Has Attachment: " ++ attachment.Name)) c
        else c
      else b.client
    ({ b with client := client }, some b.message, none)

end MessageBuilder

/-! ## The builder chains of the examples -/

/-- A client with the default options. -/
def quietClient : Client :=
  { options := DefaultClientOptions, logger := logDefault }

/-- A client with debug logging switched on. -/
def debugClient : Client :=
  { options := { DefaultClientOptions with Debug := true }, logger := logDefault }

/-- The chain of `example/debug-only/main.go`, with a shorter HTML body. -/
def debugOnlyChain : MessageBuilder :=
  (((((((debugClient.NewMessage.From "sender@yourdomain.com").To
    "recipient1@example.com" ["John Doe"]).To "recipient2@example.com" []).Cc
    "manager@example.com" ["Manager"]).Bcc "archive@example.com" []).ReplyTo
    "noreply@yourdomain.com" []).Subject "Debug Test Email with Custom Logger").PlainText
    "This is the plain text version of the email." |>.HTML "<h1>Debug Test Email</h1>"

/-- A chain that fails validation: no sender, no content, and three invalid
recipient addresses, one of them given twice. -/
def failingChain : MessageBuilder :=
  (((((quietClient.NewMessage.To "x" []).To "x" []).Cc "y@z" ["Y"]).Bcc
    "ok@a.b" []).Subject "s")

/-- MIME detection that reports plain text for every path. -/
def detectPlain : String → Except String String :=
  fun _ => Except.ok "text/plain; charset=utf-8"

/-- A file system in which every path holds the bytes of `Hello World`. -/
def readHello : String → Except String (List Byte) :=
  fun _ => Except.ok [72, 101, 108, 108, 111, 32, 87, 111, 114, 108, 100]

/-! ## Statements of the specification, written from its words -/

/-- An accepted address, as the claim describes it: exactly one `@`, a part
before it and a part after it that are not empty, and a `.` in the part after. -/
def specValidEmail (s : String) : Prop :=
  s.data.count '@' = 1
    ∧ ∃ pre post : String, s = pre ++ "@" ++ post ∧ pre ≠ "" ∧ post ≠ "" ∧ '.' ∈ post.data

namespace MessageBuilder

/-- The display name the claim describes: the first name when there is one and
it is not empty, the empty string otherwise. -/
def specDisplayName (ns : List String) : String :=
  match ns with
  | [] => ""
  | n :: _ => if n = "" then "" else n

/-- The failure messages of one address list: one message per entry whose
address is not accepted, in the order of the list. -/
def specInvalid (l : List EmailAddress) : List String :=
  (l.filter (fun r => !isValidEmail r.Address)).map
    (fun r => "invalid email address: " ++ r.Address)

/-- The failure messages of a message in the order the claim gives. -/
def specMessages (m : EmailMessage) : List String :=
  (if m.SenderAddress = "" then ["sender address is required"] else [])
    ++ (if m.Content.Subject = "" then ["subject is required"] else [])
    ++ (if m.Content.PlainText = "" ∧ m.Content.Html = "" then
          ["either plain text or HTML content is required"] else [])
    ++ (if m.Recipients.To = [] ∧ m.Recipients.Cc = [] ∧ m.Recipients.Bcc = [] then
          ["at least one recipient is required"] else [])
    ++ specInvalid m.Recipients.To
    ++ specInvalid m.Recipients.Cc
    ++ specInvalid m.Recipients.Bcc
    ++ (if isValidEmail m.SenderAddress then []
        else ["invalid sender email address: " ++ m.SenderAddress])

/-- A message that passes validation, as the claims describe it. -/
def specValid (m : EmailMessage) : Prop :=
  m.Content.Subject ≠ ""
    ∧ (m.Content.PlainText ≠ "" ∨ m.Content.Html ≠ "")
    ∧ 0 < m.Recipients.To.length + m.Recipients.Cc.length + m.Recipients.Bcc.length
    ∧ (∀ r ∈ m.Recipients.To ++ m.Recipients.Cc ++ m.Recipients.Bcc,
        isValidEmail r.Address = true)
    ∧ isValidEmail m.SenderAddress = true

end MessageBuilder

/-! ## Client defaults -/

/-- C6: `DefaultClientOptions` has `MaxRetries = 3`, `RetryDelay` of one second,
that is 1,000,000,000 nanoseconds, `Debug = false`, `HTTPTimeout` of thirty
seconds and `APIVersion = DefaultAPIVersion = "2025-09-01"`. -/
theorem DefaultClientOptions_values :
    DefaultClientOptions.MaxRetries = 3
      ∧ DefaultClientOptions.RetryDelay = Second
      ∧ DefaultClientOptions.RetryDelay = 1000000000
      ∧ DefaultClientOptions.Debug = false
      ∧ DefaultClientOptions.HTTPTimeout = 30 * Second
      ∧ DefaultClientOptions.HTTPTimeout = 30000000000
      ∧ DefaultClientOptions.APIVersion = DefaultAPIVersion
      ∧ DefaultAPIVersion = "2025-09-01" := by
  refine ⟨rfl, rfl, ?_, rfl, rfl, ?_, rfl, rfl⟩ <;> decide

/-! ## isValidEmail -/

theorem isValidEmail_empty : isValidEmail "" = false := by decide

theorem splitChars_ne_nil (sep : Char) (cs : List Char) : splitChars sep cs ≠ [] := by
  cases cs with
  | nil => simp [splitChars]
  | cons c cs =>
    unfold splitChars
    split_ifs
    · simp
    · split <;> simp

theorem splitChars_not_mem (sep : Char) (q : List Char) (hq : sep ∉ q) :
    splitChars sep q = [q] := by
  induction q with
  | nil => rfl
  | cons c q ih =>
    have hc : c ≠ sep := fun h => hq (h ▸ List.mem_cons_self _ _)
    have hq2 : sep ∉ q := fun h => hq (List.mem_cons_of_mem _ h)
    simp [splitChars, hc, ih hq2]

theorem splitChars_append (sep : Char) (p rest : List Char) (hp : sep ∉ p) :
    splitChars sep (p ++ sep :: rest) = p :: splitChars sep rest := by
  induction p with
  | nil => simp [splitChars]
  | cons c p ih =>
    have hc : c ≠ sep := fun h => hp (h ▸ List.mem_cons_self _ _)
    have hp2 : sep ∉ p := fun h => hp (List.mem_cons_of_mem _ h)
    simp [splitChars, hc, ih hp2]

theorem splitChars_pieces (sep : Char) (cs : List Char) :
    ∀ p ∈ splitChars sep cs, sep ∉ p := by
  induction cs with
  | nil => simp [splitChars]
  | cons c cs ih =>
    unfold splitChars
    split_ifs with hc
    · intro p hp
      rcases List.mem_cons.mp hp with h | h
      · simp [h]
      · exact ih p h
    · rcases hs : splitChars sep cs with _ | ⟨p0, ps⟩
      · exact absurd hs (splitChars_ne_nil sep cs)
      · rw [hs] at ih
        intro p hp
        rcases List.mem_cons.mp hp with h | h
        · rw [h]
          intro hmem
          rcases List.mem_cons.mp hmem with h1 | h1
          · exact hc h1.symm
          · exact ih p0 (List.mem_cons_self _ _) h1
        · exact ih p (List.mem_cons_of_mem _ h)

theorem splitChars_single (sep : Char) (cs d : List Char) (h : splitChars sep cs = [d]) :
    cs = d := by
  induction cs generalizing d with
  | nil =>
    simp only [splitChars, List.cons.injEq, and_true] at h
    exact h
  | cons c cs ih =>
    unfold splitChars at h
    split_ifs at h with hc
    · simp only [List.cons.injEq] at h
      exact absurd h.2 (splitChars_ne_nil sep cs)
    · rcases hs : splitChars sep cs with _ | ⟨p0, ps⟩
      · exact absurd hs (splitChars_ne_nil sep cs)
      · rw [hs] at h
        simp only [List.cons.injEq] at h
        obtain ⟨h1, h2⟩ := h
        subst h2
        rw [ih p0 hs, ← h1]

theorem splitChars_pair (sep : Char) (cs l d : List Char) :
    splitChars sep cs = [l, d] ↔ cs = l ++ sep :: d ∧ sep ∉ l ∧ sep ∉ d := by
  constructor
  · intro h
    have hl : sep ∉ l := splitChars_pieces sep cs l (by simp [h])
    have hd : sep ∉ d := splitChars_pieces sep cs d (by simp [h])
    refine ⟨?_, hl, hd⟩
    clear hl hd
    induction cs generalizing l with
    | nil => simp [splitChars] at h
    | cons c cs ih =>
      unfold splitChars at h
      split_ifs at h with hc
      · simp only [List.cons.injEq] at h
        obtain ⟨h1, h2⟩ := h
        rw [← h1, hc, splitChars_single sep cs d h2]
        rfl
      · rcases hs : splitChars sep cs with _ | ⟨p0, ps⟩
        · exact absurd hs (splitChars_ne_nil sep cs)
        · rw [hs] at h
          simp only [List.cons.injEq] at h
          obtain ⟨h1, h2⟩ := h
          subst h2
          rw [ih p0 hs, ← h1]
          rfl
  · rintro ⟨h, hl, hd⟩
    rw [h, splitChars_append sep l d hl, splitChars_not_mem sep d hd]

theorem isValidEmail_iff_split (s : String) :
    isValidEmail s = true
      ↔ ∃ l d : List Char, splitChars '@' s.data = [l, d] ∧ l ≠ [] ∧ d ≠ [] ∧ '.' ∈ d := by
  unfold isValidEmail Split Contains
  simp only [List.length_map]
  by_cases hlen : (splitChars '@' s.data).length = 2
  · obtain ⟨l, d, hld⟩ := List.length_eq_two.mp hlen
    rw [hld]
    simp [String.length]
    constructor
    · rintro ⟨⟨a, b⟩, c⟩
      exact ⟨l, d, ⟨rfl, rfl⟩, a, b, c⟩
    · rintro ⟨l2, d2, ⟨rfl, rfl⟩, a, b, c⟩
      exact ⟨⟨a, b⟩, c⟩
  · simp only [ne_eq, hlen, not_false_eq_true, if_true, Bool.false_eq_true, false_iff]
    rintro ⟨l, d, hld, _⟩
    rw [hld] at hlen
    exact hlen rfl

theorem splitChars_map (sep : Char) (f : Char → Char) (hf : ∀ c, f c = sep ↔ c = sep)
    (cs : List Char) :
    splitChars sep (cs.map f) = (splitChars sep cs).map (List.map f) := by
  induction cs with
  | nil => rfl
  | cons c cs ih =>
    by_cases hc : c = sep
    · have hfc : f c = sep := (hf c).mpr hc
      simp [splitChars, hc, hfc, ih, (hf sep).mpr rfl]
    · have hfc : f c ≠ sep := fun h => hc ((hf c).mp h)
      rcases hs : splitChars sep cs with _ | ⟨p0, ps⟩
      · exact absurd hs (splitChars_ne_nil sep cs)
      · simp [splitChars, hc, hfc, ih, hs]

theorem isValidEmail_iff_spec (s : String) : isValidEmail s = true ↔ specValidEmail s := by
  rw [isValidEmail_iff_split]
  unfold specValidEmail
  constructor
  · rintro ⟨l, d, hld, hl, hd, hdot⟩
    obtain ⟨hs, hnl, hnd⟩ := (splitChars_pair _ _ _ _).mp hld
    refine ⟨?_, String.mk l, String.mk d, ?_, ?_, ?_, hdot⟩
    · rw [hs, List.count_append, List.count_cons_self, List.count_eq_zero_of_not_mem hnl,
        List.count_eq_zero_of_not_mem hnd]
    · apply String.ext
      simp [hs]
    · intro h; exact hl (congrArg String.data h)
    · intro h; exact hd (congrArg String.data h)
  · rintro ⟨hc, pre, post, hs, hpre, hpost, hdot⟩
    have hdata : s.data = pre.data ++ '@' :: post.data := by
      rw [hs]; simp
    rw [hdata, List.count_append, List.count_cons_self] at hc
    have h1 : List.count '@' pre.data = 0 := by omega
    have h2 : List.count '@' post.data = 0 := by omega
    refine ⟨pre.data, post.data, ?_, ?_, ?_, hdot⟩
    · exact (splitChars_pair _ _ _ _).mpr
        ⟨hdata, List.count_eq_zero.mp h1, List.count_eq_zero.mp h2⟩
    · intro h; exact hpre (String.ext h)
    · intro h; exact hpost (String.ext h)

theorem isValidEmail_map (f : Char → Char) (s : String)
    (hat : ∀ c, f c = '@' ↔ c = '@') (hdot : ∀ c, f c = '.' ↔ c = '.') :
    isValidEmail (String.mk (s.data.map f)) = isValidEmail s := by
  rw [Bool.eq_iff_iff, isValidEmail_iff_split, isValidEmail_iff_split]
  simp only [splitChars_map '@' f hat]
  constructor
  · rintro ⟨l, d, hld, hl, hd, hmem⟩
    rcases hs : splitChars '@' s.data with _ | ⟨l0, _ | ⟨d0, _ | ⟨x, xs⟩⟩⟩
    · rw [hs] at hld; simp at hld
    · rw [hs] at hld; simp at hld
    · rw [hs] at hld
      simp only [List.map_cons, List.map_nil, List.cons.injEq, and_true] at hld
      obtain ⟨h1, h2⟩ := hld
      refine ⟨l0, d0, rfl, ?_, ?_, ?_⟩
      · intro h; rw [h] at h1; exact hl h1.symm
      · intro h; rw [h] at h2; exact hd h2.symm
      · rw [← h2] at hmem
        obtain ⟨c, hc, hfc⟩ := List.mem_map.mp hmem
        rwa [(hdot c).mp hfc] at hc
    · rw [hs] at hld; simp at hld
  · rintro ⟨l, d, hld, hl, hd, hmem⟩
    refine ⟨l.map f, d.map f, by rw [hld]; rfl, ?_, ?_, ?_⟩
    · simpa using hl
    · simpa using hd
    · exact List.mem_map.mpr ⟨'.', hmem, (hdot '.').mpr rfl⟩

/-- C8: `isValidEmail(s)` holds exactly when `s` has exactly one `@`, the part
before it is not empty, the part after it is not empty and the part after it
contains a `.`.  No other character matters: renaming the characters of `s`
other than `@` and `.` does not change the answer.  So `a@.` and `a b@c.d` are
accepted and `a@b`, `@b.c`, `a@` and `a@b@c.d` are rejected. -/
theorem isValidEmail_characterisation :
    (∀ s : String, isValidEmail s = true ↔
      (s.data.count '@' = 1
        ∧ ∃ pre post : String,
            s = pre ++ "@" ++ post ∧ pre ≠ "" ∧ post ≠ "" ∧ '.' ∈ post.data))
      ∧ (∀ (f : Char → Char) (s : String),
          (∀ c, f c = '@' ↔ c = '@') → (∀ c, f c = '.' ↔ c = '.') →
          isValidEmail (String.mk (s.data.map f)) = isValidEmail s)
      ∧ isValidEmail "a@." = true
      ∧ isValidEmail "a b@c.d" = true
      ∧ isValidEmail "a@b" = false
      ∧ isValidEmail "@b.c" = false
      ∧ isValidEmail "a@" = false
      ∧ isValidEmail "a@b@c.d" = false := by
  refine ⟨isValidEmail_iff_spec, isValidEmail_map, ?_, ?_, ?_, ?_, ?_, ?_⟩ <;> decide

/-! ## Base64 and `filepath.Base` -/

theorem decChar_encChar_fin : ∀ i : Fin 64, decChar (encChar i.val) = some i.val := by
  decide

theorem encChar_ne_pad_fin : ∀ i : Fin 64, encChar i.val ≠ '=' := by
  decide

theorem decChar_encChar (n : Nat) : decChar (encChar (n % 64)) = some (n % 64) :=
  decChar_encChar_fin ⟨n % 64, Nat.mod_lt _ (by decide)⟩

theorem encChar_ne_pad (n : Nat) : encChar (n % 64) ≠ '=' :=
  encChar_ne_pad_fin ⟨n % 64, Nat.mod_lt _ (by decide)⟩

theorem ofNat_eq_byte (x : Nat) (b : Byte) (h : x % 256 = b.val) :
    (Fin.ofNat x : Fin 256) = b :=
  Fin.ext h

theorem decodeChars_encodeChars (l : List Byte) : decodeChars (encodeChars l) = some l := by
  induction l using encodeChars.induct with
  | case1 b0 b1 b2 rest ih =>
    have h0 := b0.isLt
    have h1 := b1.isLt
    have h2 := b2.isLt
    simp only [encodeChars, decodeChars, encChar_ne_pad, if_false, decChar_encChar, ih,
      Option.some.injEq, List.cons.injEq, and_true]
    refine ⟨ofNat_eq_byte _ _ ?_, ofNat_eq_byte _ _ ?_, ofNat_eq_byte _ _ ?_⟩ <;> omega
  | case2 b0 b1 =>
    have h0 := b0.isLt
    have h1 := b1.isLt
    simp only [encodeChars, decodeChars, encChar_ne_pad, if_false, if_true, decChar_encChar,
      ne_eq, not_true_eq_false, Option.some.injEq, List.cons.injEq, and_true]
    refine ⟨ofNat_eq_byte _ _ ?_, ofNat_eq_byte _ _ ?_⟩ <;> omega
  | case3 b0 =>
    have h0 := b0.isLt
    simp only [encodeChars, decodeChars, if_false, if_true, decChar_encChar,
      ne_eq, not_true_eq_false, Option.some.injEq, List.cons.injEq, and_true]
    exact ofNat_eq_byte _ _ (by omega)
  | case4 => rfl

theorem encodeChars_length (l : List Byte) :
    (encodeChars l).length = 4 * ((l.length + 2) / 3) := by
  induction l using encodeChars.induct with
  | case1 b0 b1 b2 rest ih =>
    simp only [encodeChars, List.length_cons, ih]
    omega
  | case2 b0 b1 => simp [encodeChars]
  | case3 b0 => simp [encodeChars]
  | case4 => rfl

theorem takeWhile_stop (p : Char → Bool) (l r : List Char) (hl : ∀ x ∈ l, p x = true)
    (hr : r = [] ∨ ∃ a r2, r = a :: r2 ∧ p a = false) :
    (l ++ r).takeWhile p = l := by
  induction l with
  | nil =>
    rcases hr with rfl | ⟨a, r2, rfl, ha⟩
    · rfl
    · simp [List.takeWhile, ha]
  | cons x l ih =>
    have hx : p x = true := hl x (List.mem_cons_self _ _)
    have hl2 : ∀ y ∈ l, p y = true := fun y hy => hl y (List.mem_cons_of_mem _ hy)
    simp [List.takeWhile, hx, ih hl2]

theorem Base_reversed (name r : List Char) (hne : name ≠ []) (hns : '/' ∉ name)
    (hr : r = [] ∨ ∃ r2, r = '/' :: r2) :
    Base (String.mk (r.reverse ++ name)) = String.mk name := by
  unfold Base
  have hpath : String.mk (r.reverse ++ name) ≠ "" := by
    intro h
    have h2 := congrArg String.data h
    simp only [List.append_eq_nil] at h2
    exact hne h2.2
  rw [if_neg hpath]
  dsimp only
  rw [List.reverse_append, List.reverse_reverse]
  have hall : ∀ x ∈ name.reverse, (fun c : Char => decide (c ≠ '/')) x = true := by
    intro x hx
    have hx2 : x ∈ name := List.mem_reverse.mp hx
    have : x ≠ '/' := fun h => hns (h ▸ hx2)
    simpa using this
  have hdrop : List.dropWhile (fun c : Char => decide (c = '/')) (name.reverse ++ r)
      = name.reverse ++ r := by
    rcases hn : name.reverse with _ | ⟨x, xs⟩
    · exact absurd (List.reverse_eq_nil_iff.mp hn) hne
    · have hx : x ≠ '/' := by
        have := hall x (by rw [hn]; exact List.mem_cons_self _ _)
        simpa using this
      simp [List.dropWhile, hx]
  rw [hdrop]
  have htake : List.takeWhile (fun c : Char => decide (c ≠ '/')) (name.reverse ++ r)
      = name.reverse := by
    apply takeWhile_stop _ _ _ hall
    rcases hr with rfl | ⟨r2, rfl⟩
    · exact Or.inl rfl
    · exact Or.inr ⟨'/', r2, rfl, by simp⟩
  rw [htake, List.reverse_reverse, if_neg hne]

theorem Base_dir_name (dir name : String) (hne : name ≠ "") (hns : '/' ∉ name.data) :
    Base (dir ++ "/" ++ name) = name := by
  have hn : name.data ≠ [] := fun h => hne (String.ext h)
  have h := Base_reversed name.data ('/' :: dir.data.reverse) hn hns (Or.inr ⟨_, rfl⟩)
  have hd : dir ++ "/" ++ name = String.mk (('/' :: dir.data.reverse).reverse ++ name.data) := by
    apply String.ext
    simp
  rw [hd, h]

theorem Base_plain (name : String) (hne : name ≠ "") (hns : '/' ∉ name.data) :
    Base name = name := by
  have hn : name.data ≠ [] := fun h => hne (String.ext h)
  have h := Base_reversed name.data [] hn hns (Or.inl rfl)
  simpa using h

namespace MessageBuilder

/-! ## Adding addresses -/

theorem mkEmailAddr_eq (a : String) (ns : List String) :
    mkEmailAddr a ns = { Address := a, DisplayName := specDisplayName ns } := by
  cases ns with
  | nil => simp [mkEmailAddr, specDisplayName]
  | cons n rest =>
    by_cases hn : n = ""
    · simp [mkEmailAddr, specDisplayName, hn]
    · simp [mkEmailAddr, specDisplayName, hn]

theorem mkEmailAddr_cons (a n : String) (rest : List String) :
    mkEmailAddr a (n :: rest) = mkEmailAddr a [n] := by
  simp [mkEmailAddr_eq, specDisplayName]

/-- C3: each of `To`, `Cc`, `Bcc` and `ReplyTo` appends the entry with
`Address = a` and with `DisplayName` the first display name when one is given
and it is not empty, and the empty string otherwise; the display names after
the first do not influence the result. -/
theorem appended_address (b : MessageBuilder) (a : String) (ns : List String) :
    ((b.To a ns).message.Recipients.To
        = b.message.Recipients.To ++ [{ Address := a, DisplayName := specDisplayName ns }]
      ∧ (b.Cc a ns).message.Recipients.Cc
        = b.message.Recipients.Cc ++ [{ Address := a, DisplayName := specDisplayName ns }]
      ∧ (b.Bcc a ns).message.Recipients.Bcc
        = b.message.Recipients.Bcc ++ [{ Address := a, DisplayName := specDisplayName ns }]
      ∧ (b.ReplyTo a ns).message.ReplyTo
        = b.message.ReplyTo ++ [{ Address := a, DisplayName := specDisplayName ns }])
    ∧ (specDisplayName [] = ""
      ∧ (∀ rest : List String, specDisplayName ("" :: rest) = "")
      ∧ (∀ (n : String) (rest : List String), n ≠ "" → specDisplayName (n :: rest) = n))
    ∧ (∀ (n : String) (rest : List String),
        b.To a (n :: rest) = b.To a [n] ∧ b.Cc a (n :: rest) = b.Cc a [n]
          ∧ b.Bcc a (n :: rest) = b.Bcc a [n] ∧ b.ReplyTo a (n :: rest) = b.ReplyTo a [n]) := by
  refine ⟨⟨?_, ?_, ?_, ?_⟩, ⟨rfl, ?_, ?_⟩, ?_⟩
  · simp [To, mkEmailAddr_eq]
  · simp [Cc, mkEmailAddr_eq]
  · simp [Bcc, mkEmailAddr_eq]
  · simp [ReplyTo, mkEmailAddr_eq]
  · intro rest; simp [specDisplayName]
  · intro n rest hn; simp [specDisplayName, hn]
  · intro n rest
    simp only [To, Cc, Bcc, ReplyTo, mkEmailAddr_cons a n rest, and_self]

/-- C4: each of `To`, `Cc`, `Bcc` and `ReplyTo` puts exactly one entry, carrying
the given address, at the end of its own list, keeps the earlier entries of that
list in place, and leaves the sender, the subject, the plain text, the HTML, the
three other address lists and the attachments as they were. -/
theorem add_address_frame (b : MessageBuilder) (a : String) (ns : List String) :
    (∃ e : EmailAddress, e.Address = a
        ∧ (b.To a ns).message.Recipients.To = b.message.Recipients.To ++ [e]
        ∧ (b.To a ns).message.Recipients.Cc = b.message.Recipients.Cc
        ∧ (b.To a ns).message.Recipients.Bcc = b.message.Recipients.Bcc
        ∧ (b.To a ns).message.ReplyTo = b.message.ReplyTo
        ∧ (b.To a ns).message.SenderAddress = b.message.SenderAddress
        ∧ (b.To a ns).message.Content = b.message.Content
        ∧ (b.To a ns).message.Attachments = b.message.Attachments)
    ∧ (∃ e : EmailAddress, e.Address = a
        ∧ (b.Cc a ns).message.Recipients.Cc = b.message.Recipients.Cc ++ [e]
        ∧ (b.Cc a ns).message.Recipients.To = b.message.Recipients.To
        ∧ (b.Cc a ns).message.Recipients.Bcc = b.message.Recipients.Bcc
        ∧ (b.Cc a ns).message.ReplyTo = b.message.ReplyTo
        ∧ (b.Cc a ns).message.SenderAddress = b.message.SenderAddress
        ∧ (b.Cc a ns).message.Content = b.message.Content
        ∧ (b.Cc a ns).message.Attachments = b.message.Attachments)
    ∧ (∃ e : EmailAddress, e.Address = a
        ∧ (b.Bcc a ns).message.Recipients.Bcc = b.message.Recipients.Bcc ++ [e]
        ∧ (b.Bcc a ns).message.Recipients.To = b.message.Recipients.To
        ∧ (b.Bcc a ns).message.Recipients.Cc = b.message.Recipients.Cc
        ∧ (b.Bcc a ns).message.ReplyTo = b.message.ReplyTo
        ∧ (b.Bcc a ns).message.SenderAddress = b.message.SenderAddress
        ∧ (b.Bcc a ns).message.Content = b.message.Content
        ∧ (b.Bcc a ns).message.Attachments = b.message.Attachments)
    ∧ (∃ e : EmailAddress, e.Address = a
        ∧ (b.ReplyTo a ns).message.ReplyTo = b.message.ReplyTo ++ [e]
        ∧ (b.ReplyTo a ns).message.Recipients.To = b.message.Recipients.To
        ∧ (b.ReplyTo a ns).message.Recipients.Cc = b.message.Recipients.Cc
        ∧ (b.ReplyTo a ns).message.Recipients.Bcc = b.message.Recipients.Bcc
        ∧ (b.ReplyTo a ns).message.SenderAddress = b.message.SenderAddress
        ∧ (b.ReplyTo a ns).message.Content = b.message.Content
        ∧ (b.ReplyTo a ns).message.Attachments = b.message.Attachments) := by
  have hA : (mkEmailAddr a ns).Address = a := by simp [mkEmailAddr_eq]
  exact ⟨⟨mkEmailAddr a ns, hA, rfl, rfl, rfl, rfl, rfl, rfl, rfl⟩,
    ⟨mkEmailAddr a ns, hA, rfl, rfl, rfl, rfl, rfl, rfl, rfl⟩,
    ⟨mkEmailAddr a ns, hA, rfl, rfl, rfl, rfl, rfl, rfl, rfl⟩,
    ⟨mkEmailAddr a ns, hA, rfl, rfl, rfl, rfl, rfl, rfl, rfl⟩⟩

/-! ## Validation -/

theorem foldl_invalid (l : List EmailAddress) (acc : List String) :
    l.foldl
        (fun errors recipient =>
          if !isValidEmail recipient.Address then
            errors ++ ["invalid email address: " ++ recipient.Address]
          else errors)
        acc
      = acc ++ specInvalid l := by
  induction l generalizing acc with
  | nil => simp [specInvalid]
  | cons r l ih =>
    rw [List.foldl_cons, ih]
    cases h : isValidEmail r.Address <;> simp [specInvalid, h]

theorem specInvalid_append (l₁ l₂ : List EmailAddress) :
    specInvalid (l₁ ++ l₂) = specInvalid l₁ ++ specInvalid l₂ := by
  simp [specInvalid]

theorem specInvalid_eq_nil (l : List EmailAddress) :
    specInvalid l = [] ↔ ∀ r ∈ l, isValidEmail r.Address = true := by
  simp [specInvalid, List.filter_eq_nil_iff]

theorem validationErrors_eq (b : MessageBuilder) :
    validationErrors b = specMessages b.message := by
  unfold validationErrors specMessages
  simp only [foldl_invalid, specInvalid_append, List.length_eq_zero, List.nil_append,
    List.append_assoc]
  split_ifs <;> simp_all

theorem Validate_snd (b : MessageBuilder) :
    (Validate b).2
      = if specMessages b.message = [] then none
        else some ("validation failed: " ++ Join (specMessages b.message) "; ") := by
  unfold Validate
  simp only [validationErrors_eq]
  by_cases h : specMessages b.message = []
  · simp [h]
  · have : 0 < (specMessages b.message).length := List.length_pos.mpr h
    simp [h, this]

theorem Validate_fst_message (b : MessageBuilder) : (Validate b).1.message = b.message := by
  unfold Validate
  dsimp only
  split_ifs <;> rfl

theorem specMessages_eq_nil (m : EmailMessage) : specMessages m = [] ↔ specValid m := by
  unfold specMessages specValid
  simp only [List.append_eq_nil, specInvalid_eq_nil, List.mem_append]
  constructor
  · rintro ⟨⟨⟨⟨⟨⟨⟨h1, h2⟩, h3⟩, h4⟩, h5⟩, h6⟩, h7⟩, h8⟩
    have hv : isValidEmail m.SenderAddress = true := by
      by_contra hv; simp [hv] at h8
    refine ⟨?_, ?_, ?_, ?_, hv⟩
    · intro hs; simp [hs] at h2
    · by_contra hc; push_neg at hc; simp [hc.1, hc.2] at h3
    · by_contra hc
      have hz : m.Recipients.To.length = 0 ∧ m.Recipients.Cc.length = 0
          ∧ m.Recipients.Bcc.length = 0 := by omega
      simp only [List.length_eq_zero] at hz
      simp [hz.1, hz.2.1, hz.2.2] at h4
    · rintro r ((hr | hr) | hr)
      · exact h5 r hr
      · exact h6 r hr
      · exact h7 r hr
  · rintro ⟨h2, h3, h4, h5, hv⟩
    have h1 : m.SenderAddress ≠ "" := by
      intro hs; rw [hs, isValidEmail_empty] at hv; exact Bool.noConfusion hv
    have h4' : ¬ (m.Recipients.To = [] ∧ m.Recipients.Cc = [] ∧ m.Recipients.Bcc = []) := by
      rintro ⟨a, b, c⟩; simp [a, b, c] at h4
    have h3' : ¬ (m.Content.PlainText = "" ∧ m.Content.Html = "") := by
      rintro ⟨a, b⟩; rcases h3 with h | h
      · exact h a
      · exact h b
    refine ⟨⟨⟨⟨⟨⟨⟨?_, ?_⟩, ?_⟩, ?_⟩, ?_⟩, ?_⟩, ?_⟩, ?_⟩
    · simp [h1]
    · simp [h2]
    · simp [h3']
    · simp [h4']
    · exact fun r hr => h5 r (Or.inl (Or.inl hr))
    · exact fun r hr => h5 r (Or.inl (Or.inr hr))
    · exact fun r hr => h5 r (Or.inr hr)
    · simp [hv]

theorem Validate_eq_none (b : MessageBuilder) :
    (Validate b).2 = none ↔ specValid b.message := by
  rw [Validate_snd, ← specMessages_eq_nil]
  by_cases h : specMessages b.message = [] <;> simp [h]

/-- C7: `Validate` returns nil exactly when the subject is not empty, the plain
text or the HTML is not empty, `To`, `Cc` and `Bcc` together hold at least one
entry, every entry of the three lists has an address accepted by
`isValidEmail`, and the sender is accepted by `isValidEmail`; an accepted
string is never empty. -/
theorem Validate_nil_iff (b : MessageBuilder) :
    ((Validate b).2 = none ↔
      (b.message.Content.Subject ≠ ""
        ∧ (b.message.Content.PlainText ≠ "" ∨ b.message.Content.Html ≠ "")
        ∧ 0 < b.message.Recipients.To.length + b.message.Recipients.Cc.length
              + b.message.Recipients.Bcc.length
        ∧ (∀ r ∈ b.message.Recipients.To ++ b.message.Recipients.Cc
              ++ b.message.Recipients.Bcc, isValidEmail r.Address = true)
        ∧ isValidEmail b.message.SenderAddress = true))
    ∧ ∀ s : String, isValidEmail s = true → s ≠ "" := by
  refine ⟨Validate_eq_none b, ?_⟩
  intro s hs h
  rw [h, isValidEmail_empty] at hs
  exact Bool.noConfusion hs

/-- C9: when `Validate` fails, the error text is `validation failed: ` followed
by every failure message joined with `; `, in the order: missing sender, missing
subject, missing content, missing recipient, one message per invalid address of
`To`, then of `Cc`, then of `Bcc` (one per occurrence), then the invalid sender.
An empty sender is reported both first, as missing, and last, as invalid. -/
theorem Validate_error_text (b : MessageBuilder) (err : String)
    (h : (Validate b).2 = some err) :
    err = "validation failed: " ++ Join (specMessages b.message) "; "
      ∧ specMessages b.message ≠ []
      ∧ (b.message.SenderAddress = "" →
          ∃ mid : List String, specMessages b.message
            = "sender address is required" :: (mid ++ ["invalid sender email address: "])) := by
  rw [Validate_snd] at h
  by_cases hnil : specMessages b.message = []
  · simp [hnil] at h
  · simp only [hnil, if_false, Option.some.injEq] at h
    refine ⟨h.symm, hnil, ?_⟩
    intro hs
    refine ⟨(if b.message.Content.Subject = "" then ["subject is required"] else [])
      ++ (if b.message.Content.PlainText = "" ∧ b.message.Content.Html = "" then
            ["either plain text or HTML content is required"] else [])
      ++ (if b.message.Recipients.To = [] ∧ b.message.Recipients.Cc = []
            ∧ b.message.Recipients.Bcc = [] then
            ["at least one recipient is required"] else [])
      ++ specInvalid b.message.Recipients.To
      ++ specInvalid b.message.Recipients.Cc
      ++ specInvalid b.message.Recipients.Bcc, ?_⟩
    unfold specMessages
    rw [hs, isValidEmail_empty]
    simp

/-! ## Build -/

theorem Build_snd (b : MessageBuilder) :
    (Build b).2
      = match (Validate b).2 with
        | some err => (none, some err)
        | none => (some b.message, none) := by
  unfold Build
  dsimp only
  generalize hb : (if b.client.options.Debug = true then
      ({ b with client := b.client.Printf "[DEBUG] Building email message" } : MessageBuilder)
    else b) = b1
  have hm : b1.message = b.message := by
    rw [← hb]; split_ifs <;> rfl
  have hv : (Validate b1).2 = (Validate b).2 := by
    rw [Validate_snd, Validate_snd, hm]
  have hf := Validate_fst_message b1
  rcases hV : Validate b1 with ⟨b2, e⟩
  rw [hV] at hv hf
  simp only at hv hf
  rw [← hv]
  cases e with
  | none => simp only [hf, hm]
  | some err => rfl

theorem Build_fst_message (b : MessageBuilder) : (Build b).1.message = b.message := by
  unfold Build
  dsimp only
  generalize hb : (if b.client.options.Debug = true then
      ({ b with client := b.client.Printf "[DEBUG] Building email message" } : MessageBuilder)
    else b) = b1
  have hm : b1.message = b.message := by
    rw [← hb]; split_ifs <;> rfl
  have hf := Validate_fst_message b1
  rcases hV : Validate b1 with ⟨b2, e⟩
  rw [hV] at hf
  simp only at hf
  cases e with
  | none => simp only [hf, hm]
  | some err => simp only [hf, hm]

/-- C1: when `Build` returns a nil error, it returns a message whose sender is
not empty, whose subject is not empty, whose plain text or HTML is not empty,
and which has at least one recipient among `To`, `Cc` and `Bcc`. -/
theorem Build_ok_fields (b : MessageBuilder) (h : (Build b).2.2 = none) :
    ∃ m : EmailMessage, (Build b).2.1 = some m
      ∧ m.SenderAddress ≠ ""
      ∧ m.Content.Subject ≠ ""
      ∧ (m.Content.PlainText ≠ "" ∨ m.Content.Html ≠ "")
      ∧ 0 < m.Recipients.To.length + m.Recipients.Cc.length + m.Recipients.Bcc.length := by
  rw [Build_snd] at h ⊢
  cases hv : (Validate b).2 with
  | some err => rw [hv] at h; exact absurd h (by simp)
  | none =>
    obtain ⟨h2, h3, h4, _, h6⟩ := (Validate_eq_none b).mp hv
    refine ⟨b.message, rfl, ?_, h2, h3, h4⟩
    intro hs
    rw [hs, isValidEmail_empty] at h6
    exact Bool.noConfusion h6

/-- C2: `Build` returns either a message with a nil error or a nil message with
an error.  It returns `(nil, err)` exactly when `Validate` on the same builder
returns the error `err`; when `Validate` returns nil it returns the message the
builder holds, which neither `Validate` nor `Build` modifies, so that a chain of
builder calls yields the message with the fields those calls set. -/
theorem Build_iff_Validate (b : MessageBuilder) :
    ((∃ m, (Build b).2 = (some m, none)) ∨ (∃ err, (Build b).2 = (none, some err)))
      ∧ (∀ err : String, (Build b).2 = (none, some err) ↔ (Validate b).2 = some err)
      ∧ ((Validate b).2 = none → (Build b).2 = (some b.message, none))
      ∧ (Build b).1.message = b.message
      ∧ (Validate b).1.message = b.message
      ∧ (∀ (c : Client) (f t n s p h : String),
          (Validate (((((c.NewMessage.From f).To t [n]).Subject s).PlainText p).HTML h)).2 = none →
          (Build (((((c.NewMessage.From f).To t [n]).Subject s).PlainText p).HTML h)).2
            = (some
                { SenderAddress := f
                  Content := { Subject := s, PlainText := p, Html := h }
                  Recipients := { To := [{ Address := t, DisplayName := n }], Cc := [], Bcc := [] }
                  ReplyTo := []
                  Attachments := [] },
               none)) := by
  refine ⟨?_, ?_, ?_, Build_fst_message b, Validate_fst_message b, ?_⟩
  · rw [Build_snd]
    cases (Validate b).2 with
    | none => exact Or.inl ⟨_, rfl⟩
    | some err => exact Or.inr ⟨_, rfl⟩
  · intro err
    rw [Build_snd]
    cases (Validate b).2 with
    | none => simp
    | some e => simp
  · intro hv
    rw [Build_snd, hv]
  · intro c f t n s p h hv
    rw [Build_snd, hv]
    simp only [HTML, PlainText, Subject, To, From, Client.NewMessage, mkEmailAddr_eq,
      specDisplayName, List.nil_append]
    by_cases hn : n = "" <;> simp [hn]

/-! ## AddMultipleRecipients -/

theorem foldl_To_message (as : List String) (b : MessageBuilder) :
    (as.foldl (fun b a => b.To a []) b).message
      = { b.message with
          Recipients := { b.message.Recipients with
            To := b.message.Recipients.To
              ++ as.map (fun a => { Address := a, DisplayName := "" }) } } := by
  induction as generalizing b with
  | nil => simp
  | cons a as ih =>
    rw [List.foldl_cons, ih]
    simp [To, mkEmailAddr_eq, specDisplayName]

theorem foldl_Cc_message (as : List String) (b : MessageBuilder) :
    (as.foldl (fun b a => b.Cc a []) b).message
      = { b.message with
          Recipients := { b.message.Recipients with
            Cc := b.message.Recipients.Cc
              ++ as.map (fun a => { Address := a, DisplayName := "" }) } } := by
  induction as generalizing b with
  | nil => simp
  | cons a as ih =>
    rw [List.foldl_cons, ih]
    simp [Cc, mkEmailAddr_eq, specDisplayName]

theorem foldl_Bcc_message (as : List String) (b : MessageBuilder) :
    (as.foldl (fun b a => b.Bcc a []) b).message
      = { b.message with
          Recipients := { b.message.Recipients with
            Bcc := b.message.Recipients.Bcc
              ++ as.map (fun a => { Address := a, DisplayName := "" }) } } := by
  induction as generalizing b with
  | nil => simp
  | cons a as ih =>
    rw [List.foldl_cons, ih]
    simp [Bcc, mkEmailAddr_eq, specDisplayName]

theorem foldl_message_congr (g : MessageBuilder → String → MessageBuilder)
    (hg : ∀ b₁ b₂ a, b₁.message = b₂.message → (g b₁ a).message = (g b₂ a).message)
    (as : List String) (b₁ b₂ : MessageBuilder) (h : b₁.message = b₂.message) :
    (as.foldl g b₁).message = (as.foldl g b₂).message := by
  induction as generalizing b₁ b₂ with
  | nil => exact h
  | cons a as ih => exact ih _ _ (hg b₁ b₂ a h)

theorem AddMultipleRecipients_message (u : Char → Char) (b : MessageBuilder)
    (rt : String) (as : List String) (g : MessageBuilder → String → MessageBuilder)
    (hg : ∀ b₁ b₂ a, b₁.message = b₂.message → (g b₁ a).message = (g b₂ a).message)
    (hstep : ∀ b0 addr,
      (let t := ToLower u rt
       if t = "to" then b0.To addr []
       else if t = "cc" then b0.Cc addr []
       else if t = "bcc" then b0.Bcc addr []
       else if b0.client.options.Debug then
         { b0 with client := b0.client.Printf ("[DEBUG] Unknown recipient type: " ++ rt) }
       else b0) = g b0 addr) :
    (AddMultipleRecipients u b rt as).message = (as.foldl g b).message := by
  unfold AddMultipleRecipients
  have hfun : (fun b0 addr =>
      (let t := ToLower u rt
       if t = "to" then b0.To addr []
       else if t = "cc" then b0.Cc addr []
       else if t = "bcc" then b0.Bcc addr []
       else if b0.client.options.Debug then
         { b0 with client := b0.client.Printf ("[DEBUG] Unknown recipient type: " ++ rt) }
       else b0)) = g := by
    funext b0 addr; exact hstep b0 addr
  simp only [hfun]
  apply foldl_message_congr g hg
  split_ifs <;> rfl

/-- C5: when the lower-case form of `recipientType` is `to`, `cc` or `bcc`,
`AddMultipleRecipients` yields the message obtained by calling `To`, `Cc` or
`Bcc` once per address, in order, without a display name: the chosen list is the
old list followed by one entry with an empty display name per address, and the
rest of the message is as before.  The letter case of the type does not
matter. -/
theorem AddMultipleRecipients_refines (u : Char → Char) (b : MessageBuilder)
    (rt : String) (as : List String) :
    (ToLower u rt = "to" →
        (AddMultipleRecipients u b rt as).message
            = (as.foldl (fun b a => b.To a []) b).message
          ∧ (AddMultipleRecipients u b rt as).message
            = { b.message with
                Recipients := { b.message.Recipients with
                  To := b.message.Recipients.To
                    ++ as.map (fun a => { Address := a, DisplayName := "" }) } })
      ∧ (ToLower u rt = "cc" →
        (AddMultipleRecipients u b rt as).message
            = (as.foldl (fun b a => b.Cc a []) b).message
          ∧ (AddMultipleRecipients u b rt as).message
            = { b.message with
                Recipients := { b.message.Recipients with
                  Cc := b.message.Recipients.Cc
                    ++ as.map (fun a => { Address := a, DisplayName := "" }) } })
      ∧ (ToLower u rt = "bcc" →
        (AddMultipleRecipients u b rt as).message
            = (as.foldl (fun b a => b.Bcc a []) b).message
          ∧ (AddMultipleRecipients u b rt as).message
            = { b.message with
                Recipients := { b.message.Recipients with
                  Bcc := b.message.Recipients.Bcc
                    ++ as.map (fun a => { Address := a, DisplayName := "" }) } })
      ∧ (ToLower u "to" = "to" ∧ ToLower u "To" = "to" ∧ ToLower u "tO" = "to"
          ∧ ToLower u "TO" = "to" ∧ ToLower u "cc" = "cc" ∧ ToLower u "CC" = "cc"
          ∧ ToLower u "Bcc" = "bcc" ∧ ToLower u "BCC" = "bcc") := by
  refine ⟨?_, ?_, ?_, rfl, rfl, rfl, rfl, rfl, rfl, rfl, rfl⟩
  · intro h
    have key := AddMultipleRecipients_message u b rt as (fun b a => b.To a [])
      (fun b₁ b₂ a hm => by simp [To, hm]) (fun b0 addr => by simp [h])
    exact ⟨key, by rw [key, foldl_To_message]⟩
  · intro h
    have key := AddMultipleRecipients_message u b rt as (fun b a => b.Cc a [])
      (fun b₁ b₂ a hm => by simp [Cc, hm]) (fun b0 addr => by simp [h])
    exact ⟨key, by rw [key, foldl_Cc_message]⟩
  · intro h
    have key := AddMultipleRecipients_message u b rt as (fun b a => b.Bcc a [])
      (fun b₁ b₂ a hm => by simp [Bcc, hm]) (fun b0 addr => by simp [h])
    exact ⟨key, by rw [key, foldl_Bcc_message]⟩

/-! ## AddAttachment -/

/-- C10: when MIME detection of the path succeeds with type `m` and reading it
succeeds with bytes `d`, `AddAttachment` returns a builder whose attachments
are the earlier ones followed by exactly one entry, with `Name` the last
element of the path, `ContentType` equal to `m` and `Content` the padded
standard base64 text of `d`, which decodes back to `d`; the sender, content,
recipients, reply-to list and the client are as before. -/
theorem AddAttachment_appends (DetectFile : String → Except String String)
    (ReadFile : String → Except String (List Byte)) (b : MessageBuilder)
    (filePath m : String) (d : List Byte)
    (hm : DetectFile filePath = Except.ok m) (hd : ReadFile filePath = Except.ok d) :
    ∃ b2 : MessageBuilder, AddAttachment DetectFile ReadFile b filePath = Except.ok b2
      ∧ b2.message.Attachments
          = b.message.Attachments
            ++ [{ Name := Base filePath, ContentType := m, Content := EncodeToString d }]
      ∧ DecodeString (EncodeToString d) = some d
      ∧ (EncodeToString d).length = 4 * ((d.length + 2) / 3)
      ∧ (∀ dir name : String, filePath = dir ++ "/" ++ name → name ≠ "" → '/' ∉ name.data →
          Base filePath = name)
      ∧ (filePath ≠ "" → '/' ∉ filePath.data → Base filePath = filePath)
      ∧ b2.message.SenderAddress = b.message.SenderAddress
      ∧ b2.message.Content = b.message.Content
      ∧ b2.message.Recipients = b.message.Recipients
      ∧ b2.message.ReplyTo = b.message.ReplyTo
      ∧ b2.client = b.client := by
  refine ⟨{ b with message := { b.message with
      Attachments := b.message.Attachments
        ++ [{ Name := Base filePath, ContentType := m, Content := EncodeToString d }] } },
    by simp only [AddAttachment, hm, hd], rfl, decodeChars_encodeChars d,
    encodeChars_length d, ?_, Base_plain filePath, rfl, rfl, rfl, rfl, rfl⟩
  intro dir name hp hne hns
  rw [hp]
  exact Base_dir_name dir name hne hns

/-! ## The theorems at the example chains -/

theorem Build_ok_fields_witness :
    (Build debugOnlyChain).2.2 = none
      ∧ ∃ m : EmailMessage, (Build debugOnlyChain).2.1 = some m
        ∧ m.SenderAddress ≠ ""
        ∧ m.Content.Subject ≠ ""
        ∧ (m.Content.PlainText ≠ "" ∨ m.Content.Html ≠ "")
        ∧ 0 < m.Recipients.To.length + m.Recipients.Cc.length + m.Recipients.Bcc.length :=
  ⟨by decide, Build_ok_fields debugOnlyChain (by decide)⟩

theorem Validate_error_text_witness :
    (Validate failingChain).2
        = some ("validation failed: sender address is required; "
            ++ "either plain text or HTML content is required; "
            ++ "invalid email address: x; invalid email address: x; "
            ++ "invalid email address: y@z; invalid sender email address: ")
      ∧ specMessages failingChain.message
        = ["sender address is required", "either plain text or HTML content is required",
            "invalid email address: x", "invalid email address: x",
            "invalid email address: y@z", "invalid sender email address: "] :=
  have h : (Validate failingChain).2
      = some ("validation failed: sender address is required; "
            ++ "either plain text or HTML content is required; "
            ++ "invalid email address: x; invalid email address: x; "
            ++ "invalid email address: y@z; invalid sender email address: ") := by decide
  ⟨((Validate_error_text failingChain _ h).1 ▸ h), by decide⟩

theorem AddAttachment_appends_witness :
    ∃ b2 : MessageBuilder,
      AddAttachment detectPlain readHello
          (((quietClient.NewMessage.From "sender@yourdomain.com").To
            "recipient@example.com" []).Subject "Simple Test Email") "/tmp/test.txt"
        = Except.ok b2
      ∧ b2.message.Attachments
          = [{ Name := "test.txt", ContentType := "text/plain; charset=utf-8",
               Content := "SGVsbG8gV29ybGQ=" }]
      ∧ DecodeString "SGVsbG8gV29ybGQ="
          = some [72, 101, 108, 108, 111, 32, 87, 111, 114, 108, 100] := by
  obtain ⟨b2, h1, h2, h3, _⟩ := AddAttachment_appends detectPlain readHello
    (((quietClient.NewMessage.From "sender@yourdomain.com").To
      "recipient@example.com" []).Subject "Simple Test Email") "/tmp/test.txt"
    "text/plain; charset=utf-8" [72, 101, 108, 108, 111, 32, 87, 111, 114, 108, 100] rfl rfl
  refine ⟨b2, h1, ?_, ?_⟩
  · rw [h2]; decide
  · decide

end MessageBuilder

end azemailsender
